import Mathlib

/-!
Verification model of `marshall.py` (MarshExtinction): a query tool for the
Marshall et al. (2006) 3D galactic extinction grid.

Modelling conventions:
* Python floats are modelled as exact rationals (`ℚ`); the decimal literals of
  the source (`0.114`, `0.25`, `0.01`) are the corresponding exact rationals.
* A value of the `uncertainties` library (`ufloat`) is modelled as a pair
  `UV` of a nominal value and a *variance* (the square of the standard
  deviation), so that quadrature combination stays inside `ℚ`.  The library's
  first-order error propagation gives, for independent operands:
  subtraction `x - y ↦ (x.n - y.n, x.var + y.var)`, and division
  `x / y ↦ (x.n / y.n, x.var / y.n² + x.n² · y.var / y.n⁴)`.
  The library's comparison `x <= c` for a constant `c` holds iff
  `x.n < c`, or `x - c` is exactly zero (zero nominal and zero standard
  deviation); its truthiness `bool(x)` is `x != 0`, i.e. `x` is falsy iff both
  its nominal value and its standard deviation are exactly zero.
* A raised Python exception is modelled as `Except.error` (for the row scan
  and the coordinate check) or as `Option.none` (for the estimator and the row
  decoder): `AssertionError` from the range assert, `UnboundLocalError` from
  returning never-assigned variables, and `IndexError` / `ValueError` /
  `ZeroDivisionError` raised while decoding a row or building slopes.
* A CSV field is modelled as `Option ℚ`: `none` is a field that is blank after
  `strip()`, `some q` a field holding the numeral `q`.  Data rows are
  pre-parsed (`Row`): the code parses `row[0]`, `row[1]` with `float` and
  hands `row[3:]` to `split_dat`; the header row is skipped unexamined, so any
  `Row` stands for it.
-/

namespace Marshall

/-- A `ufloat` of the `uncertainties` library: nominal value and variance
(squared standard deviation), kept as exact rationals. -/
structure UV where
  n : ℚ
  var : ℚ
deriving DecidableEq

/-- The zero `ufloat`, used as an out-of-range default (never read in range). -/
def zUV : UV := ⟨0, 0⟩

/-- Subtraction `x - y` on independent `ufloat`s: nominal difference, variances add
(quadrature on standard deviations). -/
def UV.sub (x y : UV) : UV := ⟨x.n - y.n, x.var + y.var⟩

/-- Division `x / c` by a nonzero constant `c`: nominal and standard deviation both
divide by `c` (variance by `c²`). -/
def UV.divConst (x : UV) (c : ℚ) : UV := ⟨x.n / c, x.var / c ^ 2⟩

/-- Division `x / y` on independent `ufloat`s.  Python raises `ZeroDivisionError` when
the nominal value of `y` is zero (`none`); otherwise first-order propagation:
variance `x.var / y.n² + x.n² · y.var / y.n⁴`. -/
def UV.div (x y : UV) : Option UV :=
  if y.n = 0 then none
  else some ⟨x.n / y.n, x.var / y.n ^ 2 + x.n ^ 2 * y.var / y.n ^ 4⟩

/-- The library's `x <= c` against a constant: `<` compares nominal values,
`==` requires the difference to be exactly zero (zero nominal, zero standard
deviation), and `<=` is their disjunction. -/
def UV.leConst (x : UV) (c : ℚ) : Bool :=
  decide (x.n < c) || (decide (x.n = c) && decide (x.var = 0))

/-- The library's truthiness: `bool(x)` is `x != 0`, so `x` is falsy exactly
when its nominal value and standard deviation are both zero. -/
def UV.truthy (x : UV) : Bool :=
  !(decide (x.n = 0) && decide (x.var = 0))

/-- Python exceptions that the modelled paths can raise. -/
inductive PyExc where
  /-- The `AssertionError` of the range assert in `conCoords` (the range
  check the spec calls `OutOfRangeError`). -/
  | outOfRange
  /-- The `UnboundLocalError` at `return ext, rad` in `q_marshall` when no row
  matched and the variables were never assigned. -/
  | unboundLocal
  /-- An exception (`IndexError` / `ValueError`) raised while decoding a
  matching row with `split_dat`. -/
  | rowError
deriving DecidableEq

/-- Python's `round`: round half to even (banker's rounding), on the exact
rational. -/
def pyRound (x : ℚ) : ℤ :=
  if x - (⌊x⌋ : ℚ) < 1/2 then ⌊x⌋
  else if 1/2 < x - (⌊x⌋ : ℚ) then ⌊x⌋ + 1
  else if ⌊x⌋ % 2 = 0 then ⌊x⌋ else ⌊x⌋ + 1

/-- One coordinate quantization step of `conCoords`:
`round(x*4)/4 if (x % 0.25 != 0) else x`.  `x % 0.25 == 0` holds exactly when
`x` is an integer multiple of `1/4`, i.e. when `4·x` has denominator 1. -/
def quantize (x : ℚ) : ℚ :=
  if (4 * x).den ≠ 1 then ((pyRound (x * 4) : ℤ) : ℚ) / 4 else x

/-- The function `conCoords(lon, lat)` (marshall.py lines 50-82): rewrite `lon > 180` to
`lon - 360`, assert `|lon| <= 100` and `|lat| <= 10` (else
`AssertionError`), quantize both coordinates to quarter degrees, and move a
negative longitude to the stored `0..360` convention by adding 360. -/
def conCoords (lon lat : ℚ) : Except PyExc (ℚ × ℚ) :=
  let lon1 := if lon > 180 then lon - 360 else lon
  if |lon1| ≤ 100 ∧ |lat| ≤ 10 then
    let lon2 := quantize lon1
    let lon3 := if lon2 < 0 then 360 + lon2 else lon2
    .ok (lon3, quantize lat)
  else .error .outOfRange

/-- One pre-parsed data row of `marshall.dat`: the longitude and latitude
fields `row[0]`, `row[1]`, and the fields `row[3:]` handed to `split_dat`
(the unused third field is dropped).  A field is `none` when blank. -/
structure Row where
  lon : ℚ
  lat : ℚ
  data : List (Option ℚ)
deriving DecidableEq

/-- The constructor `ufloat(v, e)`: fails (`ValueError` / `TypeError`) when either field is
blank, and raises `NegativeStdDev` when `e < 0`; otherwise the value with
variance `e²`. -/
def mkUfloat (v e : Option ℚ) : Option UV :=
  match v, e with
  | some vv, some ee => if ee < 0 then none else some ⟨vv, ee ^ 2⟩
  | _, _ => none

/-- The index sequence of the `split_dat` loop: `range(0, len(data)-1, 4)`,
i.e. the multiples of 4 that are `< len - 1` (with truncated subtraction,
matching Python's empty range for `len = 0`). -/
def splitIdx (len : Nat) : List Nat :=
  (List.range ((len - 1 + 3) / 4)).map (fun k => 4 * k)

/-- The body of the `split_dat` loop over the remaining start indices `is`,
with `acc = (ext, rad)` accumulated so far: build
`vec = [data[i], data[i+1], data[i+2], data[i+3]]` (an `IndexError` is
`none`), and when `vec[0]` is non-blank append `ufloat(vec[2], vec[3])` to
`ext` and `ufloat(vec[0], vec[1])` to `rad`. -/
def splitAux (data : List (Option ℚ)) :
    List Nat → List UV × List UV → Option (List UV × List UV)
  | [], acc => some acc
  | i :: is, acc =>
      match data.get? i, data.get? (i+1), data.get? (i+2), data.get? (i+3) with
      | some v0, some v1, some v2, some v3 =>
          if v0.isSome then
            match mkUfloat v0 v1, mkUfloat v2 v3 with
            | some r, some e => splitAux data is (acc.1 ++ [e], acc.2 ++ [r])
            | _, _ => none
          else splitAux data is acc
      | _, _, _, _ => none

/-- The function `split_dat(data)` (marshall.py lines 84-116): walk `range(0, len-1, 4)`,
decode each complete group of four fields whose first (radius) field is
non-blank, and return `(ext, rad)`. -/
def split_dat (data : List (Option ℚ)) : Option (List UV × List UV) :=
  splitAux data (splitIdx data.length) ([], [])

/-- The row-matching test of `q_marshall`:
`(lon == pos[0]) & (lat == pos[1])`. -/
def rowMatches (lo la : ℚ) (r : Row) : Bool :=
  decide (r.lon = lo) && decide (r.lat = la)

/-- The `for row in reader` loop of `q_marshall` with the current value of the
`ext, rad` variables in `acc` (`none` = never assigned): each matching row
overwrites `acc` with its decoded profile (no `break`), a decoding exception
propagates, and the final `return ext, rad` raises `UnboundLocalError` when
no row ever matched. -/
def scanRows (lo la : ℚ) :
    List Row → Option (List UV × List UV) → Except PyExc (List UV × List UV)
  | [], none => .error .unboundLocal
  | [], some p => .ok p
  | r :: rs, acc =>
      if rowMatches lo la r then
        match split_dat r.data with
        | none => .error .rowError
        | some p => scanRows lo la rs (some p)
      else scanRows lo la rs acc

/-- The function `q_marshall(lon, lat)` (marshall.py lines 12-48) over a pre-parsed source
file: normalize the coordinates with `conCoords`, skip the header row
(`next(reader)`), and scan the remaining rows. -/
def q_marshall (source : List Row) (lon lat : ℚ) :
    Except PyExc (List UV × List UV) :=
  match conCoords lon lat with
  | .error e => .error e
  | .ok (lo, la) => scanRows lo la (source.drop 1) none

/-- The band conversion `ext = [x / 0.114 for x in ext]` of
`find_asymptotic_red`: divide every extinction by the constant
`0.114 = 57/500`. -/
def convertExt (ext : List UV) : List UV :=
  ext.map (fun x => x.divConst (57/500))

/-- The slope-building loop of `find_asymptotic_red` over the remaining
indices: `slopes.append((ext[i+1] - ext[i]) / (rad[i+1] - rad[i]))`, where an
`IndexError` or `ZeroDivisionError` aborts the whole call (`none`). -/
def slopesAux (ext rad : List UV) : List Nat → Option (List UV)
  | [] => some []
  | i :: is =>
      match ext.get? (i+1), ext.get? i, rad.get? (i+1), rad.get? i with
      | some e1, some e0, some r1, some r0 =>
          match UV.div (e1.sub e0) (r1.sub r0) with
          | none => none
          | some s =>
              match slopesAux ext rad is with
              | none => none
              | some rest => some (s :: rest)
      | _, _, _, _ => none

/-- The full slope list of `find_asymptotic_red`:
`for i in range(len(ext)-1): slopes.append(...)`. -/
def slopesOf (ext rad : List UV) : Option (List UV) :=
  slopesAux ext rad (List.range (ext.length - 1))

/-- The function `find_asymptotic_red(ext, rad)` (marshall.py lines 118-149): convert the
extinctions to the visual band, build the slope list, and return
`(ext[i], rad[i])` at the first index `i` with `slopes[i] <= 0.01` (the
`ufloat` comparison), else `(None, None)`.  The outer `Option` is a raised
exception, the inner `Option`s are Python's `None`. -/
def find_asymptotic_red (ext rad : List UV) : Option (Option UV × Option UV) :=
  let extV := convertExt ext
  match slopesOf extV rad with
  | none => none
  | some slopes =>
      match (List.range slopes.length).find?
          (fun i => (slopes.getD i zUV).leConst (1/100)) with
      | none => some (none, none)
      | some i =>
          match extV.get? i, rad.get? i with
          | some e, some r => some (some e, some r)
          | _, _ => none

/-- Python truthiness of an optional `ufloat`: `None` is falsy, a `ufloat` is
truthy iff it differs from exact zero. -/
def truthyOpt : Option UV → Bool
  | none => false
  | some x => x.truthy

/-- The branch condition of `get_ext` (marshall.py line 221):
`(not asymp_red) or (not asymp_dist)`.  When it is `true` the front end
reports that no asymptotic reddening was determined and skips the z-height
computation; when `false` it computes and prints the z-height. -/
def reportsNoAsymptote (red dist : Option UV) : Bool :=
  !truthyOpt red || !truthyOpt dist

/-- Nominal slope between radial points `i` and `i+1`, as the spec writes it:
`(ext[i+1] - ext[i]) / (rad[i+1] - rad[i])` on nominal values. -/
def nomSlope (ext rad : List UV) (i : Nat) : ℚ :=
  ((ext.getD (i+1) zUV).n - (ext.getD i zUV).n)
    / ((rad.getD (i+1) zUV).n - (rad.getD i zUV).n)

/-- The variance the `uncertainties` library propagates into slope `i`:
extinction variances add, then division propagation by the radial step. -/
def varSlope (ext rad : List UV) (i : Nat) : ℚ :=
  ((ext.getD (i+1) zUV).var + (ext.getD i zUV).var)
      / ((rad.getD (i+1) zUV).n - (rad.getD i zUV).n) ^ 2
    + ((ext.getD (i+1) zUV).n - (ext.getD i zUV).n) ^ 2
      * ((rad.getD (i+1) zUV).var + (rad.getD i zUV).var)
      / ((rad.getD (i+1) zUV).n - (rad.getD i zUV).n) ^ 4

/-- Closed-form version of the flattening test the code applies at index `i`:
nominal slope strictly below `0.01`, or exactly `0.01` with zero propagated
slope uncertainty. -/
def flatAtB (ext rad : List UV) (i : Nat) : Bool :=
  decide (nomSlope ext rad i < 1/100)
    || (decide (nomSlope ext rad i = 1/100) && decide (varSlope ext rad i = 0))

/-- The `ufloat` slope value at index `i` in closed form: nominal slope with
the propagated variance. -/
def slopeUV (ext rad : List UV) (i : Nat) : UV :=
  ⟨nomSlope ext rad i, varSlope ext rad i⟩

/-- Test profile from the spec: near-infrared extinctions whose visual-band
values are `[1.0, 1.49, 1.50, 1.501]`, all with zero error. -/
def exampleExt : List UV :=
  [⟨57/500, 0⟩, ⟨8493/50000, 0⟩, ⟨171/1000, 0⟩, ⟨85557/500000, 0⟩]

/-- Test radii `[0.5, 1.0, 1.5, 2.0]` with zero error. -/
def exampleRad : List UV := [⟨1/2, 0⟩, ⟨1, 0⟩, ⟨3/2, 0⟩, ⟨2, 0⟩]

/-- Test profile from the spec: visual-band values `[1.0, 1.9, 2.0]`
(slopes 1.8 and 0.2, never flat), zero error. -/
def steepExt : List UV := [⟨57/500, 0⟩, ⟨1083/5000, 0⟩, ⟨57/250, 0⟩]

/-- Test radii `[0.5, 1.0, 1.5]` with zero error. -/
def steepRad : List UV := [⟨1/2, 0⟩, ⟨1, 0⟩, ⟨3/2, 0⟩]

/-- Test profile whose visual-band values are `[0, 0.01]`, where the first
value carries standard deviation 1 (variance 1 after conversion): the single
slope has nominal value exactly `0.01` and nonzero propagated uncertainty. -/
def tieVarExt : List UV := [⟨0, 3249/250000⟩, ⟨57/50000, 0⟩]

/-- The same nominal values as `tieVarExt` but with zero errors. -/
def tieExactExt : List UV := [⟨0, 0⟩, ⟨57/50000, 0⟩]

/-- Test radii `[1, 2]` with zero error. -/
def pairRad : List UV := [⟨1, 0⟩, ⟨2, 0⟩]

/-- Test profile whose visual-band values are `[0, 0.001]`, the first with
variance 1 after conversion: the slope is flat, the returned reddening has
nominal value 0 but nonzero uncertainty. -/
def zeroRedExt : List UV := [⟨0, 3249/250000⟩, ⟨57/500000, 0⟩]

/-- A stand-in for the header row of the data file (skipped unexamined). -/
def headerRow : Row := ⟨0, 0, []⟩

/-- A data row at grid position `(0, 0)` with the single cut
`radius 1 ± 0, extinction 2 ± 0`. -/
def matchRow1 : Row := ⟨0, 0, [some 1, some 0, some 2, some 0]⟩

/-- A data row at the same grid position `(0, 0)` with the different single
cut `radius 3 ± 0, extinction 4 ± 0`. -/
def matchRow2 : Row := ⟨0, 0, [some 3, some 0, some 4, some 0]⟩

/-- A source whose two data rows carry the same grid position. -/
def dupSource : List Row := [headerRow, matchRow1, matchRow2]

/-- The same nominal values as `steepExt`, with standard deviation 1 on the
first extinction. -/
def steepVarExt : List UV := [⟨57/500, 1⟩, ⟨1083/5000, 0⟩, ⟨57/250, 0⟩]

/-- The extinction `ufloat` the decoder produces for group `k` of a data row:
`ufloat(vec[2], vec[3])` when the radius field `vec[0]` is non-blank, else
nothing. -/
def groupExt (data : List (Option ℚ)) (k : Nat) : Option UV :=
  if (data.getD (4*k) none).isSome then
    some ⟨(data.getD (4*k+2) none).getD 0, ((data.getD (4*k+3) none).getD 0) ^ 2⟩
  else none

/-- The radius `ufloat` the decoder produces for group `k` of a data row:
`ufloat(vec[0], vec[1])` when the radius field is non-blank, else nothing. -/
def groupRad (data : List (Option ℚ)) (k : Nat) : Option UV :=
  if (data.getD (4*k) none).isSome then
    some ⟨(data.getD (4*k) none).getD 0, ((data.getD (4*k+1) none).getD 0) ^ 2⟩
  else none

/-! Helper lemmas about list access, `find?`, and the slope pipeline. -/

theorem get?_eq_some_getD {α : Type} (l : List α) (d : α) (i : Nat)
    (h : i < l.length) : l.get? i = some (l.getD i d) := by
  rw [List.getD_eq_getD_get?, List.get?_eq_get h]
  rfl

theorem getD_map_range {α : Type} (m : Nat) (f : Nat → α) (d : α) (i : Nat)
    (h : i < m) : ((List.range m).map f).getD i d = f i := by
  rw [List.getD_eq_getD_get?, List.get?_map, List.get?_range h]
  rfl

theorem find?_congr {α : Type} (l : List α) (p q : α → Bool)
    (h : ∀ a ∈ l, p a = q a) : l.find? p = l.find? q := by
  induction l with
  | nil => rfl
  | cons a l ih =>
    rw [List.find?_cons, List.find?_cons, h a (List.mem_cons_self a l),
      ih (fun b hb => h b (List.mem_cons_of_mem a hb))]

theorem find?_range_eq_some (m : Nat) (p : Nat → Bool) (i0 : Nat)
    (h : i0 < m) (hp : p i0 = true) (hmin : ∀ j, j < i0 → p j = false) :
    (List.range m).find? p = some i0 := by
  induction m generalizing p i0 with
  | zero => omega
  | succ m ih =>
    rw [List.range_succ_eq_map]
    cases i0 with
    | zero => rw [List.find?_cons, hp]
    | succ k =>
      rw [List.find?_cons, hmin 0 (Nat.succ_pos k), List.find?_map]
      have hk : (List.range m).find? (p ∘ Nat.succ) = some k :=
        ih (p ∘ Nat.succ) k (by omega) hp (fun j hj => hmin (j+1) (by omega))
      rw [hk]
      rfl

theorem convertExt_length (ext : List UV) :
    (convertExt ext).length = ext.length := by
  simp [convertExt]

theorem convertExt_getD (ext : List UV) (i : Nat) :
    (convertExt ext).getD i zUV = (ext.getD i zUV).divConst (57/500) := by
  rw [List.getD_eq_getD_get?, List.getD_eq_getD_get?, convertExt,
    List.get?_map]
  cases ext.get? i <;> simp [zUV, UV.divConst]

theorem slopesAux_eq (ext rad : List UV) (is : List Nat)
    (h : ∀ i ∈ is, i + 1 < ext.length ∧ i + 1 < rad.length ∧
      (rad.getD (i+1) zUV).n ≠ (rad.getD i zUV).n) :
    slopesAux ext rad is = some (is.map (slopeUV ext rad)) := by
  induction is with
  | nil => rfl
  | cons i is ih =>
    obtain ⟨h1, h2, h3⟩ := h i (List.mem_cons_self i is)
    have he1 : ext.get? (i+1) = some (ext.getD (i+1) zUV) :=
      get?_eq_some_getD _ _ _ h1
    have he0 : ext.get? i = some (ext.getD i zUV) :=
      get?_eq_some_getD _ _ _ (Nat.lt_of_succ_lt h1)
    have hr1 : rad.get? (i+1) = some (rad.getD (i+1) zUV) :=
      get?_eq_some_getD _ _ _ h2
    have hr0 : rad.get? i = some (rad.getD i zUV) :=
      get?_eq_some_getD _ _ _ (Nat.lt_of_succ_lt h2)
    have hdiv : UV.div ((ext.getD (i+1) zUV).sub (ext.getD i zUV))
        ((rad.getD (i+1) zUV).sub (rad.getD i zUV)) = some (slopeUV ext rad i) := by
      rw [UV.div, if_neg (by simpa [UV.sub, sub_ne_zero] using h3)]
      rfl
    rw [slopesAux, he1, he0, hr1, hr0]
    simp only []
    rw [hdiv, ih (fun j hj => h j (List.mem_cons_of_mem i hj)), List.map_cons]

theorem slopesOf_eq (ext rad : List UV)
    (hlen : rad.length = ext.length)
    (hden : ∀ i < ext.length - 1, (rad.getD (i+1) zUV).n ≠ (rad.getD i zUV).n) :
    slopesOf ext rad = some ((List.range (ext.length - 1)).map (slopeUV ext rad)) := by
  apply slopesAux_eq
  intro i hi
  have hi' : i < ext.length - 1 := List.mem_range.mp hi
  exact ⟨by omega, by omega, hden i hi'⟩

theorem quantize_of_den (x : ℚ) (h : (4 * x).den = 1) : quantize x = x := by
  rw [quantize, if_neg]
  simp [h]

/-- On an in-range quarter-degree pair, `conCoords` is the identity up to the
`0..360` re-expression of a negative longitude. -/
theorem conCoords_quarter (lon lat : ℚ) (hlon : |lon| ≤ 100) (hlat : |lat| ≤ 10)
    (hq1 : (4 * lon).den = 1) (hq2 : (4 * lat).den = 1) :
    conCoords lon lat = .ok ((if lon < 0 then 360 + lon else lon), lat) := by
  have h180 : ¬ (lon > 180) := by
    have := (abs_le.mp hlon).2
    linarith
  simp only [conCoords]
  rw [if_neg h180, if_pos (⟨hlon, hlat⟩ : |lon| ≤ 100 ∧ |lat| ≤ 10),
    quantize_of_den lon hq1, quantize_of_den lat hq2]

/-- The normalizer raises the range `AssertionError` whenever the signed
longitude or the latitude is out of the window. -/
theorem conCoords_fail (lon lat : ℚ)
    (h : 100 < |if lon > 180 then lon - 360 else lon| ∨ 10 < |lat|) :
    conCoords lon lat = .error .outOfRange := by
  simp only [conCoords]
  rw [if_neg]
  rintro ⟨h1, h2⟩
  rcases h with h | h <;> linarith

theorem scanRows_nil_none (lo la : ℚ) :
    scanRows lo la [] none = .error .unboundLocal := rfl

theorem scanRows_nil_some (lo la : ℚ) (p : List UV × List UV) :
    scanRows lo la [] (some p) = .ok p := rfl

theorem scanRows_cons_hit (lo la : ℚ) (r : Row) (rs : List Row)
    (acc : Option (List UV × List UV)) (p : List UV × List UV)
    (hm : rowMatches lo la r = true) (hp : split_dat r.data = some p) :
    scanRows lo la (r :: rs) acc = scanRows lo la rs (some p) := by
  rw [scanRows, if_pos hm, hp]

theorem scanRows_cons_miss (lo la : ℚ) (r : Row) (rs : List Row)
    (acc : Option (List UV × List UV))
    (hm : rowMatches lo la r = false) :
    scanRows lo la (r :: rs) acc = scanRows lo la rs acc := by
  rw [scanRows, if_neg]
  simp [hm]

/-- Master characterization of the asymptote estimator: under the profile
invariant (equal lengths) and pairwise distinct adjacent nominal radii, the
call never raises, and returns the converted extinction and the radius at the
first index passing the flattening test, else `(None, None)`. -/
theorem find_asym_eq (ext rad : List UV)
    (hlen : rad.length = ext.length)
    (hden : ∀ i < ext.length - 1, (rad.getD (i+1) zUV).n ≠ (rad.getD i zUV).n) :
    find_asymptotic_red ext rad =
      some (((List.range (ext.length - 1)).find? (flatAtB (convertExt ext) rad)).elim
        (none, none)
        (fun i => (some ((ext.getD i zUV).divConst (57/500)), some (rad.getD i zUV)))) := by
  have hlen2 : rad.length = (convertExt ext).length := by
    rw [convertExt_length]; exact hlen
  have hden2 : ∀ i < (convertExt ext).length - 1,
      (rad.getD (i+1) zUV).n ≠ (rad.getD i zUV).n := by
    rw [convertExt_length]; exact hden
  have hs := slopesOf_eq (convertExt ext) rad hlen2 hden2
  rw [convertExt_length] at hs
  have hfind : ((List.range (ext.length - 1)).map (slopeUV (convertExt ext) rad)).length
      = ext.length - 1 := by simp
  simp only [find_asymptotic_red]
  rw [hs]
  simp only [hfind]
  have hcong : (List.range (ext.length - 1)).find?
        (fun i => (((List.range (ext.length - 1)).map
            (slopeUV (convertExt ext) rad)).getD i zUV).leConst (1/100))
      = (List.range (ext.length - 1)).find? (flatAtB (convertExt ext) rad) := by
    apply find?_congr
    intro i hi
    rw [getD_map_range _ _ _ _ (List.mem_range.mp hi)]
    rfl
  rw [hcong]
  cases hf : (List.range (ext.length - 1)).find? (flatAtB (convertExt ext) rad) with
  | none => rfl
  | some i =>
    have hi : i < ext.length - 1 := List.mem_range.mp (List.mem_of_find?_eq_some hf)
    have he : (convertExt ext).get? i = some ((convertExt ext).getD i zUV) :=
      get?_eq_some_getD _ _ _ (by rw [convertExt_length]; omega)
    have hr : rad.get? i = some (rad.getD i zUV) :=
      get?_eq_some_getD _ _ _ (by omega)
    dsimp only
    rw [he, hr, convertExt_getD]
    rfl

end Marshall

namespace Marshall

theorem scanRows_no_match (lo la : ℚ) (rows : List Row)
    (h : ∀ x ∈ rows, rowMatches lo la x = false) :
    ∀ acc, scanRows lo la rows acc =
      acc.elim (.error .unboundLocal) (fun p => .ok p) := by
  induction rows with
  | nil => intro acc; cases acc <;> rfl
  | cons r rs ih =>
    intro acc
    rw [scanRows_cons_miss _ _ _ _ _ (h r (List.mem_cons_self r rs))]
    exact ih (fun x hx => h x (List.mem_cons_of_mem r hx)) acc

theorem scanRows_last (lo la : ℚ) (l1 : List Row) (r : Row) (l2 : List Row)
    (hr : rowMatches lo la r = true)
    (h2 : ∀ x ∈ l2, rowMatches lo la x = false)
    (hall : ∀ x ∈ l1, rowMatches lo la x = true → (split_dat x.data).isSome)
    (p : List UV × List UV) (hp : split_dat r.data = some p) :
    ∀ acc, scanRows lo la (l1 ++ r :: l2) acc = .ok p := by
  induction l1 with
  | nil =>
    intro acc
    rw [List.nil_append, scanRows_cons_hit _ _ _ _ _ _ hr hp,
      scanRows_no_match _ _ _ h2]
    rfl
  | cons a l1 ih =>
    intro acc
    rw [List.cons_append]
    cases ha : rowMatches lo la a with
    | true =>
      obtain ⟨q, hq⟩ := Option.isSome_iff_exists.mp
        (hall a (List.mem_cons_self a l1) ha)
      rw [scanRows_cons_hit _ _ _ _ _ _ ha hq]
      exact ih (fun x hx hx' => hall x (List.mem_cons_of_mem a hx) hx') (some q)
    | false =>
      rw [scanRows_cons_miss _ _ _ _ _ ha]
      exact ih (fun x hx hx' => hall x (List.mem_cons_of_mem a hx) hx') acc

theorem conCoords_zero : conCoords 0 0 = .ok (0, 0) := by
  have h := conCoords_quarter 0 0 (by norm_num) (by norm_num) (by norm_num)
    (by norm_num)
  simpa using h

theorem split_matchRow1 : split_dat matchRow1.data = some ([⟨2, 0⟩], [⟨1, 0⟩]) := by
  have h1 : splitIdx matchRow1.data.length = [0] := rfl
  rw [split_dat, h1]
  norm_num [splitAux, mkUfloat, matchRow1]

theorem split_matchRow2 : split_dat matchRow2.data = some ([⟨4, 0⟩], [⟨3, 0⟩]) := by
  have h1 : splitIdx matchRow2.data.length = [0] := rfl
  rw [split_dat, h1]
  norm_num [splitAux, mkUfloat, matchRow2]

/-- C2 (amended): the grid lookup returns the profile decoded from the
*last* data row whose longitude and latitude equal the normalized
coordinates (the scan does not stop at the first match); when the position
occurs in at most one row this coincides with the first match. -/
theorem C2_thm (source : List Row) (lon lat lo la : ℚ)
    (l1 l2 : List Row) (r : Row) (p : List UV × List UV)
    (hcon : conCoords lon lat = .ok (lo, la))
    (hsrc : source.drop 1 = l1 ++ r :: l2)
    (hr : rowMatches lo la r = true)
    (h2 : ∀ x ∈ l2, rowMatches lo la x = false)
    (hall : ∀ x ∈ l1, rowMatches lo la x = true → (split_dat x.data).isSome)
    (hp : split_dat r.data = some p) :
    q_marshall source lon lat = .ok p := by
  unfold q_marshall
  rw [hcon]
  dsimp only
  rw [hsrc]
  exact scanRows_last lo la l1 r l2 hr h2 hall p hp none

/-- C2 counterexample: on a source holding two data rows with the same grid
position, the lookup returns the second (last) matching profile, not the
profile decoded from the first matching row. -/
theorem C2_cex :
    q_marshall dupSource 0 0 = .ok ([⟨4, 0⟩], [⟨3, 0⟩]) ∧
    split_dat matchRow1.data = some ([⟨2, 0⟩], [⟨1, 0⟩]) ∧
    (([⟨4, 0⟩], [⟨3, 0⟩]) : List UV × List UV) ≠ ([⟨2, 0⟩], [⟨1, 0⟩]) := by
  refine ⟨?_, split_matchRow1, by norm_num [UV.mk.injEq]⟩
  unfold q_marshall
  rw [conCoords_zero]
  dsimp only
  rw [show dupSource.drop 1 = [matchRow1, matchRow2] from rfl]
  rw [scanRows_cons_hit 0 0 _ _ _ _ (by norm_num [rowMatches, matchRow1])
      split_matchRow1,
    scanRows_cons_hit 0 0 _ _ _ _ (by norm_num [rowMatches, matchRow2])
      split_matchRow2,
    scanRows_nil_some]

/-- C2 witness: the amended theorem applied to the duplicate-position
source, returning the last matching profile. -/
theorem C2_wit :
    conCoords 0 0 = .ok (0, 0) ∧
    q_marshall dupSource 0 0 = .ok ([⟨4, 0⟩], [⟨3, 0⟩]) :=
  ⟨conCoords_zero,
    C2_thm dupSource 0 0 0 0 [matchRow1] [] matchRow2 ([⟨4, 0⟩], [⟨3, 0⟩])
      conCoords_zero rfl (by norm_num [rowMatches, matchRow2])
      (by intro x hx; cases hx)
      (by
        intro x hx hx'
        rw [List.mem_singleton] at hx
        rw [hx, split_matchRow1]
        rfl)
      split_matchRow2⟩

/-- C4: at a normalized position matching no data row, `q_marshall` raises
`UnboundLocalError` at `return ext, rad` (the variables were never
assigned); no `PositionNotFoundError` is raised anywhere in the code. -/
theorem C4_thm : q_marshall [headerRow] 0 0 = .error .unboundLocal := by
  unfold q_marshall
  rw [conCoords_zero]
  dsimp only
  rfl

/-- C5: the normalizer rewrites longitudes above 180 by subtracting 360 and
raises the range error whenever the signed longitude exceeds 100 in absolute
value or the latitude exceeds 10, for every source - so no lookup is
attempted. -/
theorem C5_thm (lon lat : ℚ) (source : List Row)
    (h : 100 < |if lon > 180 then lon - 360 else lon| ∨ 10 < |lat|) :
    conCoords lon lat = .error .outOfRange ∧
    q_marshall source lon lat = .error .outOfRange := by
  have hc := conCoords_fail lon lat h
  refine ⟨hc, ?_⟩
  unfold q_marshall
  rw [hc]

/-- C5 witness: `longitude = 150, latitude = 0` raises the range error. -/
theorem C5_wit :
    (100 < |if (150 : ℚ) > 180 then (150 : ℚ) - 360 else (150 : ℚ)| ∨
      10 < |(0 : ℚ)|) ∧
    conCoords 150 0 = .error .outOfRange ∧
    q_marshall [headerRow, matchRow1] 150 0 = .error .outOfRange := by
  have h := C5_thm 150 0 [headerRow, matchRow1] (by norm_num)
  exact ⟨by norm_num, h.1, h.2⟩

/-- C8: on in-range coordinates that are exact quarter-degree multiples,
quantization is the identity, and a negative longitude is re-expressed in
the `0..360` convention by adding 360. -/
theorem C8_thm (lon lat : ℚ)
    (hlon : |lon| ≤ 100) (hlat : |lat| ≤ 10)
    (hq1 : (4 * lon).den = 1) (hq2 : (4 * lat).den = 1) :
    quantize lon = lon ∧ quantize lat = lat ∧
    conCoords lon lat = .ok ((if lon < 0 then 360 + lon else lon), lat) :=
  ⟨quantize_of_den lon hq1, quantize_of_den lat hq2,
    conCoords_quarter lon lat hlon hlat hq1 hq2⟩

/-- C8 witness: `(-9.5, -2.25)` is kept verbatim by quantization and the
longitude is stored as `350.5`. -/
theorem C8_wit :
    (4 * (-19/2 : ℚ)).den = 1 ∧ (4 * (-9/4 : ℚ)).den = 1 ∧
    quantize (-19/2) = -19/2 ∧
    conCoords (-19/2) (-9/4) = .ok (701/2, -9/4) := by
  have h := C8_thm (-19/2) (-9/4) (by rw [abs_le]; norm_num)
    (by rw [abs_le]; norm_num) (by norm_num) (by norm_num)
  refine ⟨by norm_num, by norm_num, h.1, ?_⟩
  have h3 := h.2.2
  rw [if_pos (by norm_num : (-19/2 : ℚ) < 0)] at h3
  rw [h3]
  norm_num

end Marshall

namespace Marshall

/-- C1 (amended): the estimator converts each extinction to the visual band
by dividing by 0.114 and returns the (converted extinction, radius) pair at
the first index whose slope passes the library comparison `slope <= 0.01`:
nominal slope below 0.01, or exactly 0.01 with zero propagated slope
uncertainty.  For zero-error profiles this is exactly `nominal slope <= 0.01`,
and on the spec example it returns extinction 1.50 at radius 1.5. -/
theorem C1_thm (ext rad : List UV) (i0 : Nat)
    (hlen : rad.length = ext.length)
    (hden : ∀ i < ext.length - 1, (rad.getD (i+1) zUV).n ≠ (rad.getD i zUV).n)
    (hi0 : i0 < ext.length - 1)
    (hflat : flatAtB (convertExt ext) rad i0 = true)
    (hmin : ∀ j < i0, flatAtB (convertExt ext) rad j = false) :
    find_asymptotic_red ext rad =
      some (some ((ext.getD i0 zUV).divConst (57/500)), some (rad.getD i0 zUV)) := by
  rw [find_asym_eq ext rad hlen hden,
    find?_range_eq_some (ext.length - 1) _ i0 hi0 hflat hmin]
  rfl

/-- C1 counterexample: a profile whose only slope has nominal value exactly
0.01 but nonzero propagated uncertainty.  The claim says the pair at that
index is returned, since the slope is `<= 0.01`; the code returns
`(None, None)` because the library comparison fails. -/
theorem C1_cex :
    nomSlope (convertExt tieVarExt) pairRad 0 ≤ 1/100 ∧
    find_asymptotic_red tieVarExt pairRad = some (none, none) ∧
    find_asymptotic_red tieVarExt pairRad ≠
      some (some ((tieVarExt.getD 0 zUV).divConst (57/500)),
        some (pairRad.getD 0 zUV)) := by
  have h1 : nomSlope (convertExt tieVarExt) pairRad 0 = 1/100 := by
    norm_num [nomSlope, convertExt, tieVarExt, pairRad, UV.divConst, zUV]
  have h2 : find_asymptotic_red tieVarExt pairRad = some (none, none) := by
    norm_num [find_asymptotic_red, slopesOf, slopesAux, convertExt, tieVarExt,
      pairRad, UV.div, UV.sub, UV.divConst, UV.leConst, zUV, List.range_succ,
      List.find?]
  refine ⟨le_of_eq h1, h2, ?_⟩
  rw [h2]
  simp

/-- C1 witness: the spec example profile (visual extinctions
1.0, 1.49, 1.50, 1.501 at radii 0.5, 1.0, 1.5, 2.0, zero errors) flattens
first at index 2 and yields extinction 1.50 at radius 1.5. -/
theorem C1_wit :
    flatAtB (convertExt exampleExt) exampleRad 2 = true ∧
    (∀ j < 2, flatAtB (convertExt exampleExt) exampleRad j = false) ∧
    find_asymptotic_red exampleExt exampleRad =
      some (some ⟨3/2, 0⟩, some ⟨3/2, 0⟩) := by
  have hflat : flatAtB (convertExt exampleExt) exampleRad 2 = true := by
    norm_num [flatAtB, nomSlope, varSlope, convertExt, exampleExt, exampleRad,
      UV.divConst, zUV]
  have hmin : ∀ j < 2, flatAtB (convertExt exampleExt) exampleRad j = false := by
    intro j hj
    interval_cases j <;>
      norm_num [flatAtB, nomSlope, varSlope, convertExt, exampleExt,
        exampleRad, UV.divConst, zUV]
  have hden : ∀ i < exampleExt.length - 1,
      (exampleRad.getD (i+1) zUV).n ≠ (exampleRad.getD i zUV).n := by
    intro i hi
    norm_num [exampleExt] at hi
    interval_cases i <;> norm_num [exampleRad, zUV]
  have h := C1_thm exampleExt exampleRad 2 rfl hden
    (by norm_num [exampleExt]) hflat hmin
  refine ⟨hflat, hmin, ?_⟩
  rw [h]
  norm_num [exampleExt, exampleRad, UV.divConst, zUV]

/-- C3: a profile with fewer than two points, and a profile all of whose
nominal slopes exceed 0.01, both yield `(None, None)`. -/
theorem C3_thm :
    (∀ ext rad : List UV, ext.length < 2 →
      find_asymptotic_red ext rad = some (none, none)) ∧
    (∀ ext rad : List UV, rad.length = ext.length →
      (∀ i < ext.length - 1, (rad.getD (i+1) zUV).n ≠ (rad.getD i zUV).n) →
      (∀ i < ext.length - 1, 1/100 < nomSlope (convertExt ext) rad i) →
      find_asymptotic_red ext rad = some (none, none)) := by
  constructor
  · intro ext rad h
    have h0 : ext.length - 1 = 0 := by omega
    simp only [find_asymptotic_red, slopesOf]
    rw [convertExt_length, h0]
    rfl
  · intro ext rad hlen hden hgt
    rw [find_asym_eq ext rad hlen hden]
    have hnone : (List.range (ext.length - 1)).find?
        (flatAtB (convertExt ext) rad) = none := by
      rw [List.find?_eq_none]
      intro i hi
      have h1 := hgt i (List.mem_range.mp hi)
      simp only [flatAtB, Bool.or_eq_true, Bool.and_eq_true, decide_eq_true_eq,
        not_or, not_and]
      refine ⟨not_lt.mpr (le_of_lt h1), fun h => ?_⟩
      rw [h] at h1
      exact absurd h1 (lt_irrefl _)
    rw [hnone]
    rfl

/-- C3 witness: the empty profile, a one-point profile, and the steep spec
example (visual extinctions 1.0, 1.9, 2.0; slopes 1.8 and 0.2) all yield
`(None, None)`. -/
theorem C3_wit :
    find_asymptotic_red [] [] = some (none, none) ∧
    find_asymptotic_red [⟨1, 0⟩] [⟨1, 0⟩] = some (none, none) ∧
    steepRad.length = steepExt.length ∧
    find_asymptotic_red steepExt steepRad = some (none, none) := by
  have hden : ∀ i < steepExt.length - 1,
      (steepRad.getD (i+1) zUV).n ≠ (steepRad.getD i zUV).n := by
    intro i hi
    norm_num [steepExt] at hi
    interval_cases i <;> norm_num [steepRad, zUV]
  have hgt : ∀ i < steepExt.length - 1,
      1/100 < nomSlope (convertExt steepExt) steepRad i := by
    intro i hi
    norm_num [steepExt] at hi
    interval_cases i <;>
      norm_num [nomSlope, convertExt, steepExt, steepRad, UV.divConst, zUV]
  exact ⟨C3_thm.1 [] [] (by norm_num), C3_thm.1 [⟨1, 0⟩] [⟨1, 0⟩] (by norm_num),
    rfl, C3_thm.2 steepExt steepRad rfl hden hgt⟩

/-- C9 (amended): when the estimator finds a flattening point, the front
end classifies the result as absent when the returned reddening or distance
is exactly zero, i.e. has nominal value 0 *and* zero uncertainty (Python
falsiness of a `ufloat` requires exact zero); it then skips the z-height
computation. -/
theorem C9_thm (ext rad : List UV) (e r : UV)
    (hfind : find_asymptotic_red ext rad = some (some e, some r))
    (hz : (e.n = 0 ∧ e.var = 0) ∨ (r.n = 0 ∧ r.var = 0)) :
    reportsNoAsymptote (some e) (some r) = true := by
  rcases hz with ⟨h1, h2⟩ | ⟨h1, h2⟩ <;>
    simp [reportsNoAsymptote, truthyOpt, UV.truthy, h1, h2]

/-- C9 counterexample: a flattening point is found whose reddening has
nominal value 0 but nonzero uncertainty; the truthiness test classifies the
result as present (the branch condition is `false`), so the z-height is
computed, contradicting the claim that nominal zero alone reports absence. -/
theorem C9_cex :
    find_asymptotic_red zeroRedExt pairRad = some (some ⟨0, 1⟩, some ⟨1, 0⟩) ∧
    reportsNoAsymptote (some ⟨0, 1⟩) (some ⟨1, 0⟩) = false := by
  constructor
  · norm_num [find_asymptotic_red, slopesOf, slopesAux, convertExt, zeroRedExt,
      pairRad, UV.div, UV.sub, UV.divConst, UV.leConst, zUV, List.range_succ,
      List.find?]
  · norm_num [reportsNoAsymptote, truthyOpt, UV.truthy]

/-- C9 witness: a zero-error profile whose first extinction is 0 flattens at
its first point and is reported as absent. -/
theorem C9_wit :
    find_asymptotic_red [⟨0, 0⟩, ⟨0, 0⟩] pairRad =
      some (some ⟨0, 0⟩, some ⟨1, 0⟩) ∧
    reportsNoAsymptote (some ⟨0, 0⟩) (some ⟨1, 0⟩) = true := by
  have hfind : find_asymptotic_red [⟨0, 0⟩, ⟨0, 0⟩] pairRad =
      some (some ⟨0, 0⟩, some ⟨1, 0⟩) := by
    norm_num [find_asymptotic_red, slopesOf, slopesAux, convertExt, pairRad,
      UV.div, UV.sub, UV.divConst, UV.leConst, zUV, List.range_succ,
      List.find?]
  exact ⟨hfind, C9_thm [⟨0, 0⟩, ⟨0, 0⟩] pairRad ⟨0, 0⟩ ⟨1, 0⟩ hfind
    (Or.inl ⟨rfl, rfl⟩)⟩

/-- C10: with strictly increasing nominal radii the estimator is total (no
division by zero, some result is returned), while two adjacent points with
equal nominal radius make the slope division raise `ZeroDivisionError`. -/
theorem C10_thm :
    (∀ ext rad : List UV, rad.length = ext.length →
      (∀ i < ext.length - 1, (rad.getD i zUV).n < (rad.getD (i+1) zUV).n) →
      ∃ res, find_asymptotic_red ext rad = some res) ∧
    find_asymptotic_red [⟨0, 0⟩, ⟨1, 0⟩] [⟨1, 0⟩, ⟨1, 0⟩] = none := by
  constructor
  · intro ext rad hlen hmono
    exact ⟨_, find_asym_eq ext rad hlen (fun i hi => ne_of_gt (hmono i hi))⟩
  · have hconv : convertExt [⟨0, 0⟩, ⟨1, 0⟩] = [⟨0, 0⟩, ⟨500/57, 0⟩] := by
      norm_num [convertExt, UV.divConst]
    unfold find_asymptotic_red slopesOf
    rw [hconv]
    norm_num [slopesAux, UV.div, UV.sub, List.range_succ]

/-- C10 witness: the spec example has strictly increasing radii, so the
estimator returns a result. -/
theorem C10_wit :
    (∀ i < exampleExt.length - 1,
      (exampleRad.getD i zUV).n < (exampleRad.getD (i+1) zUV).n) ∧
    ∃ res, find_asymptotic_red exampleExt exampleRad = some res := by
  have hmono : ∀ i < exampleExt.length - 1,
      (exampleRad.getD i zUV).n < (exampleRad.getD (i+1) zUV).n := by
    intro i hi
    norm_num [exampleExt] at hi
    interval_cases i <;> norm_num [exampleRad, zUV]
  exact ⟨hmono, C10_thm.1 exampleExt exampleRad rfl hmono⟩

end Marshall

namespace Marshall

theorem getD_map_n (l : List UV) (i : Nat) :
    (l.map UV.n).getD i 0 = (l.getD i zUV).n := by
  rw [List.getD_eq_getD_get?, List.getD_eq_getD_get?, List.get?_map]
  cases l.get? i <;> rfl

theorem map_n_length {l l' : List UV} (h : l.map UV.n = l'.map UV.n) :
    l.length = l'.length := by
  have h2 := congrArg List.length h
  simpa using h2

theorem map_n_getD {l l' : List UV} (h : l.map UV.n = l'.map UV.n) (i : Nat) :
    (l.getD i zUV).n = (l'.getD i zUV).n := by
  rw [← getD_map_n, ← getD_map_n, h]

theorem nomSlope_convert (ext rad : List UV) (i : Nat) :
    nomSlope (convertExt ext) rad i =
      ((ext.getD (i+1) zUV).n / (57/500) - (ext.getD i zUV).n / (57/500)) /
        ((rad.getD (i+1) zUV).n - (rad.getD i zUV).n) := by
  rw [nomSlope, convertExt_getD, convertExt_getD]
  rfl

theorem nomSlope_congr {ext ext' rad rad' : List UV}
    (he : ext.map UV.n = ext'.map UV.n) (hr : rad.map UV.n = rad'.map UV.n)
    (i : Nat) :
    nomSlope (convertExt ext) rad i = nomSlope (convertExt ext') rad' i := by
  rw [nomSlope_convert, nomSlope_convert, map_n_getD he (i+1), map_n_getD he i,
    map_n_getD hr (i+1), map_n_getD hr i]

theorem flatAtB_of_ne (ext rad : List UV) (i : Nat)
    (h : nomSlope ext rad i ≠ 1/100) :
    flatAtB ext rad i = decide (nomSlope ext rad i < 1/100) := by
  rw [flatAtB, decide_eq_false h]
  simp

/-- C7 (amended): the slopes the estimator builds are `ufloat`s with
uncertainty propagated through the subtraction and the division (each slope
equals the closed-form nominal slope paired with the propagated variance);
the flattening decision compares the nominal slope with 0.01, except that
exact equality with 0.01 additionally requires zero propagated slope
uncertainty - so whenever no nominal slope is exactly 0.01, whether a
flattening point is found depends only on the nominal values of the input
series. -/
theorem C7_thm :
    (∀ ext rad : List UV, rad.length = ext.length →
      (∀ i < ext.length - 1, (rad.getD (i+1) zUV).n ≠ (rad.getD i zUV).n) →
      slopesOf (convertExt ext) rad =
        some ((List.range (ext.length - 1)).map (slopeUV (convertExt ext) rad))) ∧
    (∀ ext ext' rad rad' : List UV,
      rad.length = ext.length → rad'.length = ext'.length →
      ext.map UV.n = ext'.map UV.n → rad.map UV.n = rad'.map UV.n →
      (∀ i < ext.length - 1, (rad.getD (i+1) zUV).n ≠ (rad.getD i zUV).n) →
      (∀ i < ext.length - 1, nomSlope (convertExt ext) rad i ≠ 1/100) →
      (find_asymptotic_red ext rad = some (none, none) ↔
        find_asymptotic_red ext' rad' = some (none, none))) := by
  constructor
  · intro ext rad hlen hden
    have h2 := slopesOf_eq (convertExt ext) rad
      (by rw [convertExt_length]; exact hlen)
      (by rw [convertExt_length]; exact hden)
    rwa [convertExt_length] at h2
  · intro ext ext' rad rad' hlen hlen' he hr hden hne
    have hlext : ext.length = ext'.length := map_n_length he
    have hden' : ∀ i < ext'.length - 1,
        (rad'.getD (i+1) zUV).n ≠ (rad'.getD i zUV).n := by
      intro i hi
      rw [← map_n_getD hr (i+1), ← map_n_getD hr i]
      exact hden i (by omega)
    rw [find_asym_eq ext rad hlen hden, find_asym_eq ext' rad' hlen' hden']
    have hfind : (List.range (ext.length - 1)).find? (flatAtB (convertExt ext) rad)
        = (List.range (ext'.length - 1)).find? (flatAtB (convertExt ext') rad') := by
      rw [← hlext]
      apply find?_congr
      intro i hi
      have hi' := List.mem_range.mp hi
      have hnom := nomSlope_congr he hr i
      rw [flatAtB_of_ne _ _ _ (hne i hi'),
        flatAtB_of_ne _ _ _ (by rw [← hnom]; exact hne i hi'), hnom]
    rw [hfind]
    cases hres : (List.range (ext'.length - 1)).find?
        (flatAtB (convertExt ext') rad') with
    | none => simp
    | some i => simp

/-- C7 counterexample: two profiles with identical nominal values but
different uncertainties on which the estimator decides differently (the
boundary slope of exactly 0.01): the decision does not depend only on the
nominal values, and the slope carries propagated uncertainty. -/
theorem C7_cex :
    tieVarExt.map UV.n = tieExactExt.map UV.n ∧
    pairRad.map UV.n = pairRad.map UV.n ∧
    find_asymptotic_red tieVarExt pairRad = some (none, none) ∧
    find_asymptotic_red tieExactExt pairRad = some (some ⟨0, 0⟩, some ⟨1, 0⟩) ∧
    varSlope (convertExt tieVarExt) pairRad 0 = 1 := by
  refine ⟨rfl, rfl, ?_, ?_, ?_⟩
  · norm_num [find_asymptotic_red, slopesOf, slopesAux, convertExt, tieVarExt,
      pairRad, UV.div, UV.sub, UV.divConst, UV.leConst, zUV, List.range_succ,
      List.find?]
  · norm_num [find_asymptotic_red, slopesOf, slopesAux, convertExt,
      tieExactExt, pairRad, UV.div, UV.sub, UV.divConst, UV.leConst, zUV,
      List.range_succ, List.find?]
  · norm_num [varSlope, convertExt, tieVarExt, pairRad, UV.divConst, zUV]

/-- C7 witness: the amended theorem applied to the steep spec profile and
the same profile with an extra uncertainty on its first point. -/
theorem C7_wit :
    slopesOf (convertExt steepExt) steepRad =
      some ((List.range (steepExt.length - 1)).map
        (slopeUV (convertExt steepExt) steepRad)) ∧
    steepExt.map UV.n = steepVarExt.map UV.n ∧
    (find_asymptotic_red steepExt steepRad = some (none, none) ↔
      find_asymptotic_red steepVarExt steepRad = some (none, none)) := by
  have hden : ∀ i < steepExt.length - 1,
      (steepRad.getD (i+1) zUV).n ≠ (steepRad.getD i zUV).n := by
    intro i hi
    norm_num [steepExt] at hi
    interval_cases i <;> norm_num [steepRad, zUV]
  have hne : ∀ i < steepExt.length - 1,
      nomSlope (convertExt steepExt) steepRad i ≠ 1/100 := by
    intro i hi
    norm_num [steepExt] at hi
    interval_cases i <;>
      norm_num [nomSlope, convertExt, steepExt, steepRad, UV.divConst, zUV]
  exact ⟨C7_thm.1 steepExt steepRad rfl hden, rfl,
    C7_thm.2 steepExt steepVarExt steepRad steepRad rfl rfl rfl rfl hden hne⟩

end Marshall

namespace Marshall

theorem splitAux_lengths (data : List (Option ℚ)) :
    ∀ (is : List Nat) (acc res : List UV × List UV),
      splitAux data is acc = some res →
      acc.1.length = acc.2.length → res.1.length = res.2.length := by
  intro is
  induction is with
  | nil =>
    intro acc res h hacc
    rw [splitAux] at h
    cases h
    exact hacc
  | cons i is ih =>
    intro acc res h hacc
    rw [splitAux] at h
    split at h
    · split at h
      · split at h
        · exact ih _ _ h (by simp [hacc])
        · exact Option.noConfusion h
      · exact ih _ _ h hacc
    · exact Option.noConfusion h

theorem splitAux_groups (data : List (Option ℚ)) :
    ∀ (ks : List Nat) (acc : List UV × List UV),
      (∀ k ∈ ks, 4*k+3 < data.length ∧
        ((data.getD (4*k) none).isSome →
          (data.getD (4*k+1) none).isSome ∧ (data.getD (4*k+2) none).isSome ∧
          (data.getD (4*k+3) none).isSome ∧
          0 ≤ (data.getD (4*k+1) none).getD 0 ∧
          0 ≤ (data.getD (4*k+3) none).getD 0)) →
      splitAux data (ks.map (fun k => 4 * k)) acc =
        some (acc.1 ++ ks.filterMap (groupExt data),
          acc.2 ++ ks.filterMap (groupRad data)) := by
  intro ks
  induction ks with
  | nil =>
    intro acc h
    simp [splitAux]
  | cons k ks ih =>
    intro acc h
    obtain ⟨hb, hwf⟩ := h k (List.mem_cons_self k ks)
    have h0 : data.get? (4*k) = some (data.getD (4*k) none) :=
      get?_eq_some_getD _ _ _ (by omega)
    have h1 : data.get? (4*k+1) = some (data.getD (4*k+1) none) :=
      get?_eq_some_getD _ _ _ (by omega)
    have h2 : data.get? (4*k+2) = some (data.getD (4*k+2) none) :=
      get?_eq_some_getD _ _ _ (by omega)
    have h3 : data.get? (4*k+3) = some (data.getD (4*k+3) none) :=
      get?_eq_some_getD _ _ _ (by omega)
    have htail := fun acc2 => ih acc2 (fun x hx => h x (List.mem_cons_of_mem k hx))
    cases hv : data.getD (4*k) none with
    | none =>
      rw [hv] at h0
      rw [List.map_cons, splitAux, h0, h1, h2, h3]
      simp only [Option.isSome_none, Bool.false_eq_true, if_false]
      rw [htail acc, List.filterMap_cons, List.filterMap_cons]
      have hge : groupExt data k = none := by rw [groupExt, hv]; rfl
      have hgr : groupRad data k = none := by rw [groupRad, hv]; rfl
      rw [hge, hgr]
    | some a =>
      rw [hv] at h0
      obtain ⟨hs1, hs2, hs3, he1, he3⟩ := hwf (by rw [hv]; rfl)
      obtain ⟨b, hb1⟩ := Option.isSome_iff_exists.mp hs1
      obtain ⟨c, hc2⟩ := Option.isSome_iff_exists.mp hs2
      obtain ⟨d, hd3⟩ := Option.isSome_iff_exists.mp hs3
      rw [hb1] at h1 he1
      rw [hc2] at h2
      rw [hd3] at h3 he3
      simp only [Option.getD_some] at he1 he3
      have hmr : mkUfloat (some a) (some b) = some ⟨a, b ^ 2⟩ := by
        rw [mkUfloat]
        rw [if_neg (not_lt.mpr he1)]
      have hme : mkUfloat (some c) (some d) = some ⟨c, d ^ 2⟩ := by
        rw [mkUfloat]
        rw [if_neg (not_lt.mpr he3)]
      rw [List.map_cons, splitAux, h0, h1, h2, h3]
      simp only [Option.isSome_some, if_true]
      rw [hmr, hme]
      have hge : groupExt data k = some ⟨c, d ^ 2⟩ := by
        rw [groupExt, hv, hc2, hd3]
        rfl
      have hgr : groupRad data k = some ⟨a, b ^ 2⟩ := by
        rw [groupRad, hv, hb1]
        rfl
      rw [List.filterMap_cons, List.filterMap_cons, hge, hgr]
      refine (htail (acc.1 ++ [⟨c, d ^ 2⟩], acc.2 ++ [⟨a, b ^ 2⟩])).trans ?_
      simp

/-- C6: on a data row following the documented schema (the fields after the
first three come in complete groups of four, with the error fields of a
measured group present and nonnegative), the decoder appends one
(radius, extinction) pair per group whose radius field is non-blank, skips
blank-radius groups whole, preserves order, and the two returned lists
always (for every decodable row) have equal length. -/
theorem C6_thm (data : List (Option ℚ)) :
    (∀ res, split_dat data = some res → res.1.length = res.2.length) ∧
    (data.length % 4 = 0 →
      (∀ k < data.length / 4, (data.getD (4*k) none).isSome →
        (data.getD (4*k+1) none).isSome ∧ (data.getD (4*k+2) none).isSome ∧
        (data.getD (4*k+3) none).isSome ∧
        0 ≤ (data.getD (4*k+1) none).getD 0 ∧
        0 ≤ (data.getD (4*k+3) none).getD 0) →
      split_dat data =
        some ((List.range (data.length / 4)).filterMap (groupExt data),
          (List.range (data.length / 4)).filterMap (groupRad data))) := by
  constructor
  · intro res h
    exact splitAux_lengths data (splitIdx data.length) ([], []) res h rfl
  · intro hmod hwf
    have hidx : splitIdx data.length =
        (List.range (data.length / 4)).map (fun k => 4 * k) := by
      have h4 : (data.length - 1 + 3) / 4 = data.length / 4 := by omega
      rw [splitIdx, h4]
    rw [split_dat, hidx]
    have h := splitAux_groups data (List.range (data.length / 4)) ([], [])
      (fun k hk => ⟨by
        have := List.mem_range.mp hk
        omega, hwf k (List.mem_range.mp hk)⟩)
    rw [h]
    simp

end Marshall

namespace Marshall

/-- C6 witness: a schema row with one measured group followed by one blank
group decodes to a single (radius, extinction) pair; the lists have equal
length. -/
theorem C6_wit :
    (List.length [some (1:ℚ), some 0, some 2, some 0,
      none, none, none, none]) % 4 = 0 ∧
    split_dat [some (1:ℚ), some 0, some 2, some 0, none, none, none, none] =
      some ([⟨2, 0⟩], [⟨1, 0⟩]) ∧
    (([⟨2, 0⟩], [⟨1, 0⟩]) : List UV × List UV).1.length =
      (([⟨2, 0⟩], [⟨1, 0⟩]) : List UV × List UV).2.length := by
  have hwf : ∀ k < (List.length [some (1:ℚ), some 0, some 2, some 0,
      none, none, none, none]) / 4,
      ((([some (1:ℚ), some 0, some 2, some 0, none, none, none, none].getD
          (4*k) none).isSome) →
        ([some (1:ℚ), some 0, some 2, some 0, none, none, none,
          none].getD (4*k+1) none).isSome ∧
        ([some (1:ℚ), some 0, some 2, some 0, none, none, none,
          none].getD (4*k+2) none).isSome ∧
        ([some (1:ℚ), some 0, some 2, some 0, none, none, none,
          none].getD (4*k+3) none).isSome ∧
        0 ≤ ([some (1:ℚ), some 0, some 2, some 0, none, none, none,
          none].getD (4*k+1) none).getD 0 ∧
        0 ≤ ([some (1:ℚ), some 0, some 2, some 0, none, none, none,
          none].getD (4*k+3) none).getD 0) := by
    intro k hk
    norm_num at hk
    interval_cases k <;>
      simp [List.getD_cons_zero, List.getD_cons_succ]
  have h := (C6_thm [some (1:ℚ), some 0, some 2, some 0,
    none, none, none, none]).2 (by norm_num) hwf
  have hlit : split_dat [some (1:ℚ), some 0, some 2, some 0,
      none, none, none, none] = some ([⟨2, 0⟩], [⟨1, 0⟩]) := by
    rw [h]
    norm_num [groupExt, groupRad, List.range_succ, List.getD_cons_zero,
      List.getD_cons_succ, List.filterMap_cons, List.filterMap_nil]
  exact ⟨by norm_num, hlit,
    (C6_thm [some (1:ℚ), some 0, some 2, some 0,
      none, none, none, none]).1 _ hlit⟩

end Marshall
